import Mathlib

/-!
Verification of the Specter manifest-parsing and risk-annotation pipeline.

The definitions below are a shallow embedding of the TypeScript sources:
the GitHub Action (parser.ts and its entry file) and the editor extension
(scanner.ts, extension.ts, the diagnostics module).  Remote network calls
are modelled as explicit oracle functions returning Option; a none result
models a network error, a non-success status, a malformed body or a
timeout.  Host JSON parsing is modelled as an Option-returning parameter.
Machine floats (risk scores) are modelled as rationals.
-/

/-- A dependency record: name, optional version, ecosystem.
Mirrors the Dependencia interface of parser.ts and the PacoteExtraido
interface of scanner.ts (both have exactly these fields). -/
structure Dependencia where
  name : String
  version : Option String
  ecosystem : String
deriving DecidableEq

/-- Per-package scan result returned by the remote service
(ResultadoPacote in scanner.ts and the action entry file). -/
structure ResultadoPacote where
  name : String
  ecosystem : String
  version : Option String
  score : Rat
  verdict : String
  top_reasons : List String
  recommendation : String
deriving DecidableEq

/-- Whole response of POST /v1/scan (ResponseScan in scanner.ts). -/
structure ResponseScan where
  session_id : String
  packages : List ResultadoPacote
  total_scanned : Nat
  total_flagged : Nat
  response_time_ms : Nat
deriving DecidableEq

/-- A JSON value as far as the npm manifest extraction inspects it: the
code only distinguishes string values (typeof version === string) from
everything else. -/
inductive JsonLite where
  | str (s : String)
  | other
deriving DecidableEq

/-- A parsed JSON object, as an association list in declaration order. -/
abbrev JsObj := List (String × JsonLite)

/-- The three dependency sections the npm extraction reads from a parsed
package.json object. -/
structure NpmPkg where
  dependencies : JsObj
  devDependencies : JsObj
  optionalDependencies : JsObj

/-- Insert-or-update for an association list, keeping the position of an
existing key and appending a fresh key at the end.  This is both the
semantics of a JS Map.set call and of a key collision during object
spread. -/
def mapSet {α : Type} (m : List (String × α)) (k : String) (v : α) : List (String × α) :=
  match m with
  | [] => [(k, v)]
  | p :: rest => if p.1 = k then (k, v) :: rest else p :: mapSet rest k v

/-- Lookup in an association list (JS Map.get). -/
def mapGet {α : Type} (m : List (String × α)) (k : String) : Option α :=
  match m with
  | [] => none
  | p :: rest => if p.1 = k then some p.2 else mapGet rest k

/-- Remove a key from an association list (JS Map.delete or a
DiagnosticCollection.delete call). -/
def eraseKey {α : Type} (m : List (String × α)) (k : String) : List (String × α) :=
  m.filter (fun p => p.1 != k)

theorem mapGet_mapSet {α : Type} (m : List (String × α)) (k : String) (v : α) :
    mapGet (mapSet m k v) k = some v := by
  induction m with
  | nil => simp [mapSet, mapGet]
  | cons p rest ih =>
    by_cases h : p.1 = k
    · simp [mapSet, mapGet, h]
    · simp [mapSet, mapGet, h, ih]

theorem mapGet_eraseKey {α : Type} (m : List (String × α)) (k : String) :
    mapGet (eraseKey m k) k = none := by
  induction m with
  | nil => simp [eraseKey, mapGet]
  | cons p rest ih =>
    by_cases h : p.1 = k
    · simpa [eraseKey, h] using ih
    · simpa [eraseKey, mapGet, h] using ih

/-- JS String.prototype.trim on the character list of a string. -/
def trimChars (s : List Char) : List Char :=
  ((s.dropWhile Char.isWhitespace).reverse.dropWhile Char.isWhitespace).reverse

/-- Split a character list at every occurrence of a separator character
(JS split with a one-character separator). -/
def splitOnCharAux (sep : Char) : List Char → List Char → List (List Char)
  | [], acc => [acc.reverse]
  | c :: rest, acc =>
    if c = sep then acc.reverse :: splitOnCharAux sep rest []
    else splitOnCharAux sep rest (c :: acc)

def splitOnChar (sep : Char) (s : List Char) : List (List Char) :=
  splitOnCharAux sep s []

/-- JS split on the regular expression matching a newline with an
optional preceding carriage return. -/
def splitLinesAux : List Char → List Char → List (List Char)
  | [], acc => [acc.reverse]
  | '\r' :: '\n' :: rest, acc => acc.reverse :: splitLinesAux rest []
  | '\n' :: rest, acc => acc.reverse :: splitLinesAux rest []
  | c :: rest, acc => splitLinesAux rest (c :: acc)

def splitLinesJS (s : String) : List (List Char) :=
  splitLinesAux s.data []

/-- Leftmost index of a needle inside a haystack (JS String.indexOf). -/
def indexOfSub (hay needle : List Char) : Option Nat :=
  if needle.isPrefixOf hay then some 0
  else
    match hay with
    | [] => none
    | _ :: t => (indexOfSub t needle).map (· + 1)

/-- The hard batch limit of the remote service
(MAX_PACOTES_POR_REQUEST in the action, batchSize in the extension). -/
def MAX_PACOTES_POR_REQUEST : Nat := 50

/-- Fuel-indexed chunking; the fuel is an upper bound on the number of
loop iterations so that the definition is structurally recursive. -/
def chunksOfAux {α : Type} (n : Nat) : Nat → List α → List (List α)
  | _, [] => []
  | 0, _ :: _ => []
  | fuel + 1, x :: xs => ((x :: xs).take n) :: chunksOfAux n fuel ((x :: xs).drop n)

/-- Partition a list into consecutive chunks of size at most n, in input
order.  This is the slicing loop for (i = 0; i < len; i += n). -/
def chunksOf {α : Type} (n : Nat) (l : List α) : List (List α) :=
  chunksOfAux n l.length l

theorem chunksOfAux_fuel_irrel {α : Type} (n : Nat) (hn : n ≠ 0) :
    ∀ (f1 f2 : Nat) (l : List α), l.length ≤ f1 → l.length ≤ f2 →
      chunksOfAux n f1 l = chunksOfAux n f2 l := by
  intro f1
  induction f1 with
  | zero =>
    intro f2 l h1 _
    have hl : l = [] := List.eq_nil_of_length_eq_zero (Nat.le_zero.mp h1)
    subst hl
    cases f2 <;> rfl
  | succ f ih =>
    intro f2 l h1 h2
    cases l with
    | nil => cases f2 <;> rfl
    | cons x xs =>
      cases f2 with
      | zero => simp at h2
      | succ g =>
        show ((x :: xs).take n) :: chunksOfAux n f ((x :: xs).drop n)
            = ((x :: xs).take n) :: chunksOfAux n g ((x :: xs).drop n)
        have hd : ((x :: xs).drop n).length ≤ xs.length := by
          rw [List.length_drop]
          simp only [List.length_cons]
          omega
        have hxs : xs.length ≤ f := by simpa using h1
        have hxs2 : xs.length ≤ g := by simpa using h2
        rw [ih g ((x :: xs).drop n) (by omega) (by omega)]

theorem chunksOf_nil {α : Type} (n : Nat) : chunksOf n ([] : List α) = [] := rfl

theorem chunksOf_cons {α : Type} (n : Nat) (hn : n ≠ 0) (l : List α) (hl : l ≠ []) :
    chunksOf n l = l.take n :: chunksOf n (l.drop n) := by
  cases l with
  | nil => exact absurd rfl hl
  | cons x xs =>
    show chunksOfAux n (xs.length + 1) (x :: xs) = _
    show ((x :: xs).take n) :: chunksOfAux n xs.length ((x :: xs).drop n) = _
    congr 1
    apply chunksOfAux_fuel_irrel n hn
    · rw [List.length_drop]; simp only [List.length_cons]; omega
    · exact Nat.le_refl _

theorem length_le_of_mem_chunksOf {α : Type} (n : Nat) (hn : n ≠ 0) :
    ∀ (N : Nat) (l : List α), l.length ≤ N → ∀ c ∈ chunksOf n l, c.length ≤ n := by
  intro N
  induction N with
  | zero =>
    intro l hN c hc
    have hl : l = [] := List.eq_nil_of_length_eq_zero (Nat.le_zero.mp hN)
    subst hl
    simp [chunksOf_nil] at hc
  | succ N ih =>
    intro l hN c hc
    by_cases hl : l = []
    · subst hl; simp [chunksOf_nil] at hc
    · rw [chunksOf_cons n hn l hl] at hc
      rcases List.mem_cons.mp hc with hc | hc
      · subst hc
        rw [List.length_take]
        exact Nat.min_le_left _ _
      · apply ih (l.drop n) _ c hc
        rw [List.length_drop]
        have : 0 < l.length := List.length_pos.mpr hl
        omega

theorem chunksOf_flatten {α : Type} (n : Nat) (hn : n ≠ 0) :
    ∀ (N : Nat) (l : List α), l.length ≤ N → (chunksOf n l).flatten = l := by
  intro N
  induction N with
  | zero =>
    intro l hN
    have hl : l = [] := List.eq_nil_of_length_eq_zero (Nat.le_zero.mp hN)
    subst hl
    rfl
  | succ N ih =>
    intro l hN
    by_cases hl : l = []
    · subst hl; rfl
    · rw [chunksOf_cons n hn l hl]
      rw [List.flatten_cons]
      rw [ih (l.drop n) ?_]
      · exact List.take_append_drop n l
      · rw [List.length_drop]
        have : 0 < l.length := List.length_pos.mpr hl
        omega

/-- One run of the batch loop of escanearTodos: submit the chunks in
order through the remote oracle, abort on the first failure (a thrown
error in the source), concatenate the chunk responses otherwise.  The
first component records which chunks were actually submitted. -/
def runChunks (api : List Dependencia → Option (List ResultadoPacote)) :
    List (List Dependencia) → List (List Dependencia) × Option (List ResultadoPacote)
  | [] => ([], some [])
  | c :: cs =>
    match api c with
    | none => ([c], none)
    | some rs =>
      ((c :: (runChunks api cs).1),
        ((runChunks api cs).2).map (fun rest => rs ++ rest))

/-- The dispatch of the GitHub Action entry file: slice the dependency
list into batches of at most 50 and run them sequentially. -/
def dispatchRun (api : List Dependencia → Option (List ResultadoPacote))
    (deps : List Dependencia) : List (List Dependencia) × Option (List ResultadoPacote) :=
  runChunks api (chunksOf MAX_PACOTES_POR_REQUEST deps)

/-- Result of escanearTodos: the concatenated package results, or none
when any chunk call failed (the source lets the error propagate). -/
def escanearTodos (api : List Dependencia → Option (List ResultadoPacote))
    (deps : List Dependencia) : Option (List ResultadoPacote) :=
  (dispatchRun api deps).2

theorem runChunks_success (api : List Dependencia → Option (List ResultadoPacote)) :
    ∀ cs : List (List Dependencia), (∀ c ∈ cs, (api c).isSome) →
      runChunks api cs = (cs, some (cs.map (fun c => (api c).getD [])).flatten) := by
  intro cs
  induction cs with
  | nil => intro _; rfl
  | cons c rest ih =>
    intro h
    have hc : (api c).isSome := h c (by simp)
    rcases Option.isSome_iff_exists.mp hc with ⟨r, hr⟩
    have hrest := ih (fun x hx => h x (by simp [hx]))
    simp only [runChunks, hr, hrest]
    simp [hr]

theorem runChunks_first_fail (api : List Dependencia → Option (List ResultadoPacote)) :
    ∀ (cs : List (List Dependencia)) (j : Nat) (hj : j < cs.length),
      api (cs.get ⟨j, hj⟩) = none →
      (∀ i (hi : i < j), (api (cs.get ⟨i, Nat.lt_trans hi hj⟩)).isSome) →
      runChunks api cs = (cs.take (j + 1), none) := by
  intro cs
  induction cs with
  | nil => intro j hj; simp at hj
  | cons c rest ih =>
    intro j hj hfail hok
    cases j with
    | zero =>
      simp only [List.get] at hfail
      simp [runChunks, hfail]
    | succ j =>
      have h0 : (api c).isSome := by
        have := hok 0 (Nat.succ_pos j)
        simpa using this
      rcases Option.isSome_iff_exists.mp h0 with ⟨r, hr⟩
      have hj2 : j < rest.length := Nat.lt_of_succ_lt_succ hj
      have hfail2 : api (rest.get ⟨j, hj2⟩) = none := by
        simpa using hfail
      have hok2 : ∀ i (hi : i < j), (api (rest.get ⟨i, Nat.lt_trans hi hj2⟩)).isSome := by
        intro i hi
        have := hok (i + 1) (Nat.succ_lt_succ hi)
        simpa using this
      have hrest := ih j hj2 hfail2 hok2
      simp only [runChunks, hr, hrest]
      simp

/-- Claim C1: dispatch partitions every input into consecutive chunks of
size at most the batch limit 50, submits them sequentially in input
order, and when every chunk succeeds the overall result is the in-order
concatenation of the chunk responses; 120 coordinates produce exactly 3
calls of sizes 50, 50, 20. -/
theorem claim_C1_dispatch_batching
    (api : List Dependencia → Option (List ResultadoPacote)) (deps : List Dependencia) :
    (∀ c ∈ chunksOf MAX_PACOTES_POR_REQUEST deps, c.length ≤ MAX_PACOTES_POR_REQUEST) ∧
    (chunksOf MAX_PACOTES_POR_REQUEST deps).flatten = deps ∧
    ((∀ c ∈ chunksOf MAX_PACOTES_POR_REQUEST deps, (api c).isSome) →
      dispatchRun api deps =
        (chunksOf MAX_PACOTES_POR_REQUEST deps,
          some ((chunksOf MAX_PACOTES_POR_REQUEST deps).map (fun c => (api c).getD [])).flatten)) ∧
    (deps.length = 120 →
      (chunksOf MAX_PACOTES_POR_REQUEST deps).map List.length = [50, 50, 20]) := by
  refine ⟨?_, ?_, ?_, ?_⟩
  · exact length_le_of_mem_chunksOf MAX_PACOTES_POR_REQUEST (by decide) deps.length deps
      (Nat.le_refl _)
  · exact chunksOf_flatten MAX_PACOTES_POR_REQUEST (by decide) deps.length deps (Nat.le_refl _)
  · intro h
    exact runChunks_success api _ h
  · intro h120
    have h1 : deps ≠ [] := by
      intro h
      rw [h] at h120
      simp at h120
    have e1 := chunksOf_cons MAX_PACOTES_POR_REQUEST (by decide) deps h1
    have hd1 : (deps.drop MAX_PACOTES_POR_REQUEST).length = 70 := by
      rw [List.length_drop, h120]
      decide
    have h2 : deps.drop MAX_PACOTES_POR_REQUEST ≠ [] := by
      intro h
      rw [h] at hd1
      simp at hd1
    have e2 := chunksOf_cons MAX_PACOTES_POR_REQUEST (by decide) _ h2
    have hd2 : ((deps.drop MAX_PACOTES_POR_REQUEST).drop MAX_PACOTES_POR_REQUEST).length = 20 := by
      rw [List.length_drop, hd1]
      decide
    have h3 : (deps.drop MAX_PACOTES_POR_REQUEST).drop MAX_PACOTES_POR_REQUEST ≠ [] := by
      intro h
      rw [h] at hd2
      simp at hd2
    have e3 := chunksOf_cons MAX_PACOTES_POR_REQUEST (by decide) _ h3
    have hd3 : (((deps.drop MAX_PACOTES_POR_REQUEST).drop MAX_PACOTES_POR_REQUEST).drop
        MAX_PACOTES_POR_REQUEST).length = 0 := by
      rw [List.length_drop, hd2]
      decide
    have e4 : chunksOf MAX_PACOTES_POR_REQUEST
        (((deps.drop MAX_PACOTES_POR_REQUEST).drop MAX_PACOTES_POR_REQUEST).drop
          MAX_PACOTES_POR_REQUEST) = [] := by
      rw [List.eq_nil_of_length_eq_zero hd3]
      rfl
    rw [e1, e2, e3, e4]
    simp only [List.map_cons, List.map_nil, List.length_take, h120, hd1, hd2]
    norm_num [MAX_PACOTES_POR_REQUEST]

/-- A list of 120 distinct dependency coordinates. -/
def deps120 : List Dependencia :=
  (List.range 120).map (fun i => { name := toString i, version := none, ecosystem := "npm" })

/-- A remote oracle that answers every chunk. -/
def api120 : List Dependencia → Option (List ResultadoPacote) := fun _ => some []

/-- Witness for claim C1: the dispatch of 120 coordinates issues exactly
the three chunks of sizes 50, 50, 20 and succeeds. -/
theorem claim_C1_witness :
    dispatchRun api120 deps120 =
      (chunksOf MAX_PACOTES_POR_REQUEST deps120,
        some ((chunksOf MAX_PACOTES_POR_REQUEST deps120).map (fun c => (api120 c).getD [])).flatten) ∧
    (chunksOf MAX_PACOTES_POR_REQUEST deps120).map List.length = [50, 50, 20] :=
  ⟨(claim_C1_dispatch_batching api120 deps120).2.2.1 (fun _ _ => rfl),
    (claim_C1_dispatch_batching api120 deps120).2.2.2 (by simp [deps120])⟩

/-- Claim C2: if any chunk of a dispatch fails, the dispatch produces no
result at all: the first failing chunk aborts the run, the accumulated
earlier responses are discarded, only the chunks up to and including the
failing one are ever submitted, and none is submitted twice. -/
theorem claim_C2_dispatch_abort
    (api : List Dependencia → Option (List ResultadoPacote)) (deps : List Dependencia)
    (j : Nat) (hj : j < (chunksOf MAX_PACOTES_POR_REQUEST deps).length)
    (hfail : api ((chunksOf MAX_PACOTES_POR_REQUEST deps).get ⟨j, hj⟩) = none)
    (hok : ∀ i (hi : i < j),
      (api ((chunksOf MAX_PACOTES_POR_REQUEST deps).get ⟨i, Nat.lt_trans hi hj⟩)).isSome) :
    escanearTodos api deps = none ∧
    dispatchRun api deps = ((chunksOf MAX_PACOTES_POR_REQUEST deps).take (j + 1), none) := by
  have h := runChunks_first_fail api (chunksOf MAX_PACOTES_POR_REQUEST deps) j hj hfail hok
  constructor
  · show (dispatchRun api deps).2 = none
    rw [dispatchRun, h]
  · rw [dispatchRun, h]

/-- A single dependency coordinate used as the concrete failing input. -/
def depLeftPad : Dependencia := { name := "left-pad", version := none, ecosystem := "npm" }

/-- A remote oracle that fails every chunk. -/
def apiFalha : List Dependencia → Option (List ResultadoPacote) := fun _ => none

/-- Witness for claim C2: with a failing oracle, one coordinate yields a
single submitted chunk and no overall result. -/
theorem claim_C2_witness :
    escanearTodos apiFalha [depLeftPad] = none ∧
    dispatchRun apiFalha [depLeftPad] =
      ((chunksOf MAX_PACOTES_POR_REQUEST [depLeftPad]).take 1, none) :=
  claim_C2_dispatch_abort apiFalha [depLeftPad] 0 (by decide) rfl
    (fun i hi => absurd hi (Nat.not_lt_zero i))

/-- Character class of the leading-identifier regular expression used by
every line-oriented extraction in the sources. -/
def isIdentChar (c : Char) : Bool := c.isAlphanum || c = '_' || c = '-'

/-- Character class of the version-capture group of the editor pip
extraction: digits and dots. -/
def isVerChar (c : Char) : Bool := c.isDigit || c = '.'

/-- Characters treated as version-range operators by the regular
expressions of the batch parsers. -/
def isOpChar (c : Char) : Bool := c = '=' || c = '~' || c = '<' || c = '>'

/-- A character ending the lazy version capture of the batch pip parser:
whitespace or an opening extras bracket. -/
def isTermChar (c : Char) : Bool := c.isWhitespace || c = '['

/-- Quote characters recognised by the TOML item extraction. -/
def isQuote (c : Char) : Bool := c = '"' || c = '\x27'

/-- Strip one leading caret or tilde range qualifier
(the replace of a leading caret-or-tilde with nothing). -/
def stripRange (v : String) : String :=
  match v.data with
  | c :: rest => if c = '^' || c = '~' then String.mk rest else v
  | [] => v

/-- Normalise an npm version string: strip a leading caret or tilde,
then keep the text before the first hyphen (split at hyphens, take the
first piece). -/
def normalizeNpmVersion (v : String) : String :=
  String.mk ((splitOnChar '-' (stripRange v).data).headD [])

/-- JS object spread of several objects: later objects overwrite the
values of colliding keys while the key keeps its first-insertion
position; fresh keys are appended in order. -/
def jsSpreadMerge (objs : List JsObj) : JsObj :=
  objs.foldl (fun acc o => o.foldl (fun a p => mapSet a p.1 p.2) acc) []

/-- parsePackageJson of the GitHub Action parser, applied to the three
dependency sections of an already-parsed package.json object: merge the
sections by object spread, keep entries whose name is truthy and whose
value is a string, and normalise the version. -/
def parsePackageJson (dependencies devDependencies optionalDependencies : JsObj) :
    List Dependencia :=
  (jsSpreadMerge [dependencies, devDependencies, optionalDependencies]).filterMap (fun p =>
    match p.2 with
    | JsonLite.str v =>
      if p.1 = "" then none
      else some { name := p.1, version := some (normalizeNpmVersion v), ecosystem := "npm" }
    | JsonLite.other => none)

/-- Lowercase a name and normalise underscores to hyphens (the replace
of underscores followed by toLowerCase in the batch parsers). -/
def lowerNorm (c : Char) : Char := if c = '_' then '-' else c.toLower

/-- Inline-comment stripping of the batch pip parser: if the line
contains a hash, keep the text before it and trim. -/
def stripInline (l : List Char) : List Char :=
  if l.contains '#' then trimChars (l.takeWhile (fun c => c != '#')) else l

/-- The lazy version capture of the batch pip parser: the leftmost run
of operator characters, then the shortest non-empty character stretch
ending before whitespace, an opening bracket, or the end of the line.
When the operator run reaches the end of the line the regular expression
backtracks and captures the last operator character. -/
def findEqMatch : List Char → Option (List Char)
  | [] => none
  | c :: cs =>
    if isOpChar c then
      match (c :: cs).dropWhile isOpChar with
      | r :: rs => some (r :: rs.takeWhile (fun d => !(isTermChar d)))
      | [] =>
        if 2 ≤ ((c :: cs).takeWhile isOpChar).length then
          some [((c :: cs).takeWhile isOpChar).getLastD c]
        else findEqMatch cs
    else findEqMatch cs

/-- One line of the batch pip parser parseRequirements: trim, skip
blank, full-line-comment and option lines, strip inline comments, then
match a leading identifier as the name and capture an optional version
after a comparison operator. -/
def parseRequirementsLinha (linha : String) : Option Dependencia :=
  let l := trimChars linha.data
  if l.isEmpty || ['#'].isPrefixOf l || ['-', 'r', ' '].isPrefixOf l ||
      ['-', 'e', ' '].isPrefixOf l || ['-', '-'].isPrefixOf l then none
  else
    let stripped := stripInline l
    let nameRun := stripped.takeWhile isIdentChar
    if nameRun.isEmpty then none
    else
      some { name := String.mk (nameRun.map lowerNorm),
             version := (findEqMatch stripped).map (fun cap => String.mk (trimChars cap)),
             ecosystem := "pypi" }

/-- parseRequirements of the GitHub Action parser: split the content on
newlines (with optional carriage returns) and process each line. -/
def parseRequirements (conteudo : String) : List Dependencia :=
  (splitLinesJS conteudo).filterMap (fun l => parseRequirementsLinha (String.mk l))

/-- Quoted items of a text block, in order: the global match of a quote,
a non-empty stretch of non-quote characters, and a closing quote (the
two quotes need not be of the same kind).  Fuel-indexed to keep the
scan structurally recursive. -/
def quotedItemsAux : Nat → List Char → List (List Char)
  | 0, _ => []
  | _, [] => []
  | fuel + 1, c :: rest =>
    if isQuote c then
      match rest.dropWhile (fun d => !(isQuote d)) with
      | [] => []
      | _ :: rest2 =>
        if (rest.takeWhile (fun d => !(isQuote d))).isEmpty then quotedItemsAux fuel rest
        else (rest.takeWhile (fun d => !(isQuote d))) :: quotedItemsAux fuel rest2
    else quotedItemsAux fuel rest

def quotedItems (s : List Char) : List (List Char) :=
  quotedItemsAux s.length s

/-- Version capture of the TOML array-item extraction: the leftmost run
of operator characters followed by a greedy capture to the end of the
item; with nothing after the run, backtracking captures the last
operator character. -/
def versionToEnd : List Char → Option (List Char)
  | [] => none
  | c :: cs =>
    if isOpChar c then
      match (c :: cs).dropWhile isOpChar with
      | r :: rs => some (r :: rs)
      | [] =>
        if 2 ≤ ((c :: cs).takeWhile isOpChar).length then
          some [((c :: cs).takeWhile isOpChar).getLastD c]
        else versionToEnd cs
    else versionToEnd cs

/-- extrairDeArray of the TOML parser: each quoted item of the block is
split into a leading identifier (lowercased, underscores to hyphens) and
an optional version after a comparison operator. -/
def extrairDeArray (bloco : List Char) : List Dependencia :=
  (quotedItems bloco).filterMap (fun limpo =>
    let nameRun := limpo.takeWhile isIdentChar
    if nameRun.isEmpty then none
    else
      some { name := String.mk (nameRun.map lowerNorm),
             version := (versionToEnd limpo).map (fun v => String.mk (trimChars v)),
             ecosystem := "pypi" })

/-- One line of extrairDePoetry: a leading identifier, optional spaces,
an equals sign, optional spaces and a quoted (possibly empty) version;
the python pseudo-dependency is excluded. -/
def poetryLinha (linha : List Char) : Option Dependencia :=
  let nameRun := linha.takeWhile isIdentChar
  if nameRun.isEmpty then none
  else
    match (linha.dropWhile isIdentChar).dropWhile Char.isWhitespace with
    | '=' :: r2 =>
      match r2.dropWhile Char.isWhitespace with
      | q :: r4 =>
        if isQuote q then
          match r4.dropWhile (fun d => !(isQuote d)) with
          | _ :: _ =>
            if String.mk nameRun = "python" then none
            else
              some { name := String.mk (nameRun.map lowerNorm),
                     version :=
                       if (r4.takeWhile (fun d => !(isQuote d))).isEmpty then none
                       else some (String.mk (r4.takeWhile (fun d => !(isQuote d)))),
                     ecosystem := "pypi" }
          | [] => none
        else none
      | [] => none
    | _ => none

/-- extrairDePoetry of the TOML parser: process each line of the block. -/
def extrairDePoetry (bloco : List Char) : List Dependencia :=
  (splitOnChar '\n' bloco).filterMap poetryLinha

/-- parsePyprojectToml of the GitHub Action parser, with the two
section-finding regular expressions abstracted as Option-returning
parameters (a none result models a section the pattern does not find,
including any malformed input): dependencies from a project-table array
block, then from a poetry table block. -/
def parsePyprojectToml (projectMatch poetryMatch : String → Option String)
    (conteudo : String) : List Dependencia :=
  (match projectMatch conteudo with
    | some bloco => extrairDeArray bloco.data
    | none => []) ++
  (match poetryMatch conteudo with
    | some bloco => extrairDePoetry bloco.data
    | none => [])

/-- The deduplication key of coletarDependencias: the ecosystem and the
name joined by a colon, with no case normalisation. -/
def dedupeKey (d : Dependencia) : String := d.ecosystem ++ ":" ++ d.name

/-- The deduplication filter at the end of coletarDependencias: keep a
record when its key has not been seen yet. -/
def dedupeAux (vistos : List String) : List Dependencia → List Dependencia
  | [] => []
  | d :: rest =>
    if dedupeKey d ∈ vistos then dedupeAux vistos rest
    else d :: dedupeAux (dedupeKey d :: vistos) rest

/-- The record-level behaviour of coletarDependencias: the gathered
records (file reading is host input, modelled as the given list) with
duplicates by key removed, first occurrence kept. -/
def coletarDedupe (todos : List Dependencia) : List Dependencia :=
  dedupeAux [] todos

/-- Rendering of a rational threshold in the failure message; the claims
never inspect this text beyond the package names around it. -/
def formatRat (q : Rat) : String := toString q.num ++ "/" ++ toString q.den

/-- JS Array.prototype.join with a comma-space separator. -/
def joinComma : List String → String
  | [] => ""
  | [a] => a
  | a :: b :: rest => a ++ ", " ++ joinComma (b :: rest)

/-- The flagging predicate of the action entry file: score above the
threshold, a blocked verdict, or a review verdict with failOnReview. -/
def isFlagged (riskThreshold : Rat) (failOnReview : Bool) (r : ResultadoPacote) : Bool :=
  decide (riskThreshold < r.score) || r.verdict == "blocked" ||
    (failOnReview && r.verdict == "review")

/-- The flagged list computed by the action entry file. -/
def filterFlagged (riskThreshold : Rat) (failOnReview : Bool)
    (resultados : List ResultadoPacote) : List ResultadoPacote :=
  resultados.filter (isFlagged riskThreshold failOnReview)

/-- Exit-status decision of the action entry file: the run fails (calls
setFailed, so the process exits non-zero) exactly when the flagged list
is non-empty. -/
def exitZero (flagged : List ResultadoPacote) : Bool := flagged.isEmpty

/-- The failure message of the action entry file, enumerating the
flagged package names. -/
def failureMessage (riskThreshold : Rat) (flagged : List ResultadoPacote) : String :=
  "Specter encontrou " ++ toString flagged.length ++
    " pacote(s) com risco acima do threshold (" ++ formatRat riskThreshold ++ "): " ++
    joinComma (flagged.map (fun f => f.name))

theorem infix_append_left {α : Type} (x : List α) {l m : List α}
    (h : l.IsInfix m) : l.IsInfix (x ++ m) := by
  rcases h with ⟨s, t, rfl⟩
  exact ⟨x ++ s, t, by simp⟩

theorem mem_infix_joinComma :
    ∀ (names : List String) (n : String), n ∈ names →
      n.data.IsInfix (joinComma names).data := by
  intro names
  induction names with
  | nil =>
    intro n h
    simp at h
  | cons a rest ih =>
    intro n h
    cases rest with
    | nil =>
      have hn : n = a := by simpa using h
      subst hn
      exact List.infix_refl _
    | cons b rs =>
      rcases List.mem_cons.mp h with h | h
      · subst h
        show n.data.IsInfix (n ++ ", " ++ joinComma (b :: rs)).data
        rw [String.data_append, String.data_append]
        exact ⟨[], ", ".data ++ (joinComma (b :: rs)).data, by simp⟩
      · have hin := ih n h
        show n.data.IsInfix (a ++ ", " ++ joinComma (b :: rs)).data
        rw [String.data_append, String.data_append]
        rw [List.append_assoc]
        exact infix_append_left _ (infix_append_left _ hin)

/-- Claim C3: a verdict is flagged iff its score exceeds the threshold,
or its verdict is blocked, or failOnReview is on and its verdict is
review; the run exits zero iff nothing is flagged; and the failure
message names every flagged package. -/
theorem claim_C3_classification (riskThreshold : Rat) (failOnReview : Bool)
    (resultados : List ResultadoPacote) :
    (∀ r, r ∈ filterFlagged riskThreshold failOnReview resultados ↔
      (r ∈ resultados ∧ (riskThreshold < r.score ∨ r.verdict = "blocked" ∨
        (failOnReview = true ∧ r.verdict = "review")))) ∧
    (exitZero (filterFlagged riskThreshold failOnReview resultados) = true ↔
      filterFlagged riskThreshold failOnReview resultados = []) ∧
    (∀ r ∈ filterFlagged riskThreshold failOnReview resultados,
      r.name.data.IsInfix
        (failureMessage riskThreshold
          (filterFlagged riskThreshold failOnReview resultados)).data) := by
  refine ⟨?_, ?_, ?_⟩
  · intro r
    rw [filterFlagged, List.mem_filter]
    constructor
    · rintro ⟨hmem, hflag⟩
      refine ⟨hmem, ?_⟩
      simp only [isFlagged, Bool.or_eq_true, Bool.and_eq_true, decide_eq_true_eq,
        beq_iff_eq] at hflag
      tauto
    · rintro ⟨hmem, hflag⟩
      refine ⟨hmem, ?_⟩
      simp only [isFlagged, Bool.or_eq_true, Bool.and_eq_true, decide_eq_true_eq,
        beq_iff_eq]
      tauto
  · exact List.isEmpty_iff
  · intro r hr
    have hmem : r.name ∈ (filterFlagged riskThreshold failOnReview resultados).map
        (fun f => f.name) :=
      List.mem_map.mpr ⟨r, hr, rfl⟩
    have hinf := mem_infix_joinComma _ _ hmem
    show r.name.data.IsInfix _
    rw [failureMessage]
    rw [String.data_append]
    exact infix_append_left _ hinf

/-- A concrete blocked verdict. -/
def pacoteBlocked : ResultadoPacote :=
  { name := "evil-pkg", ecosystem := "npm", version := none, score := 94/100,
    verdict := "blocked", top_reasons := [], recommendation := "remove" }

/-- A concrete clean verdict. -/
def pacoteSafe : ResultadoPacote :=
  { name := "ok-pkg", ecosystem := "npm", version := none, score := 1/10,
    verdict := "safe", top_reasons := [], recommendation := "keep" }

/-- Witness for claim C3 at a concrete run: the blocked package is
flagged, the safe one is not, the run does not exit zero, and the
flagged name occurs in the failure message. -/
theorem claim_C3_witness :
    (pacoteBlocked ∈ filterFlagged (1/2) false [pacoteSafe, pacoteBlocked] ∧
      pacoteSafe ∉ filterFlagged (1/2) false [pacoteSafe, pacoteBlocked]) ∧
    exitZero (filterFlagged (1/2) false [pacoteSafe, pacoteBlocked]) ≠ true ∧
    pacoteBlocked.name.data.IsInfix
      (failureMessage (1/2) (filterFlagged (1/2) false [pacoteSafe, pacoteBlocked])).data := by
  have hmem : pacoteBlocked ∈ filterFlagged (1/2) false [pacoteSafe, pacoteBlocked] :=
    ((claim_C3_classification (1/2) false [pacoteSafe, pacoteBlocked]).1 pacoteBlocked).mpr
      ⟨by simp, Or.inr (Or.inl rfl)⟩
  refine ⟨⟨hmem, ?_⟩, ?_, ?_⟩
  · intro hsafe
    have h := ((claim_C3_classification (1/2) false [pacoteSafe, pacoteBlocked]).1
      pacoteSafe).mp hsafe
    rcases h.2 with h2 | h2 | h2
    · norm_num [pacoteSafe] at h2
    · simp [pacoteSafe] at h2
    · exact absurd h2.1 (by simp)
  · intro h
    have hnil := ((claim_C3_classification (1/2) false [pacoteSafe, pacoteBlocked]).2.1).mp h
    rw [hnil] at hmem
    simp at hmem
  · exact (claim_C3_classification (1/2) false [pacoteSafe, pacoteBlocked]).2.2
      pacoteBlocked hmem

theorem dedupeAux_mem :
    ∀ (l : List Dependencia) (vistos : List String) (d : Dependencia),
      d ∈ dedupeAux vistos l → dedupeKey d ∉ vistos ∧ d ∈ l := by
  intro l
  induction l with
  | nil =>
    intro vistos d h
    simp [dedupeAux] at h
  | cons d0 rest ih =>
    intro vistos d h
    by_cases h0 : dedupeKey d0 ∈ vistos
    · rw [dedupeAux, if_pos h0] at h
      rcases ih vistos d h with ⟨hnot, hmem⟩
      exact ⟨hnot, List.mem_cons_of_mem d0 hmem⟩
    · rw [dedupeAux, if_neg h0] at h
      rcases List.mem_cons.mp h with h | h
      · subst h
        exact ⟨h0, List.mem_cons_self _ _⟩
      · rcases ih (dedupeKey d0 :: vistos) d h with ⟨hnot, hmem⟩
        refine ⟨fun hv => hnot (List.mem_cons_of_mem _ hv), List.mem_cons_of_mem d0 hmem⟩

theorem dedupeAux_keys_nodup :
    ∀ (l : List Dependencia) (vistos : List String),
      ((dedupeAux vistos l).map dedupeKey).Nodup := by
  intro l
  induction l with
  | nil =>
    intro vistos
    simp [dedupeAux]
  | cons d0 rest ih =>
    intro vistos
    by_cases h0 : dedupeKey d0 ∈ vistos
    · rw [dedupeAux, if_pos h0]
      exact ih vistos
    · rw [dedupeAux, if_neg h0]
      rw [List.map_cons, List.nodup_cons]
      constructor
      · intro hmem
        rcases List.mem_map.mp hmem with ⟨e, he, hkey⟩
        rcases dedupeAux_mem rest (dedupeKey d0 :: vistos) e he with ⟨hnot, _⟩
        exact hnot (by rw [hkey]; exact List.mem_cons_self _ _)
      · exact ih (dedupeKey d0 :: vistos)

theorem dedupeAux_first_wins :
    ∀ (l : List Dependencia) (vistos : List String) (d : Dependencia),
      d ∈ dedupeAux vistos l →
      l.find? (fun x => dedupeKey x == dedupeKey d) = some d := by
  intro l
  induction l with
  | nil =>
    intro vistos d h
    simp [dedupeAux] at h
  | cons d0 rest ih =>
    intro vistos d h
    by_cases h0 : dedupeKey d0 ∈ vistos
    · rw [dedupeAux, if_pos h0] at h
      have hnot := (dedupeAux_mem rest vistos d h).1
      have hne : dedupeKey d0 ≠ dedupeKey d := by
        intro he
        exact hnot (he ▸ h0)
      rw [List.find?_cons_of_neg _ (by simp [hne])]
      exact ih vistos d h
    · rw [dedupeAux, if_neg h0] at h
      rcases List.mem_cons.mp h with h | h
      · subst h
        exact List.find?_cons_of_pos _ (by simp)
      · have hnot := (dedupeAux_mem rest (dedupeKey d0 :: vistos) d h).1
        have hne : dedupeKey d0 ≠ dedupeKey d := by
          intro he
          exact hnot (by rw [← he]; exact List.mem_cons_self _ _)
        rw [List.find?_cons_of_neg _ (by simp [hne])]
        exact ih (dedupeKey d0 :: vistos) d h

theorem dedupeAux_covers :
    ∀ (l : List Dependencia) (vistos : List String) (d : Dependencia),
      d ∈ l → dedupeKey d ∉ vistos →
      ∃ e ∈ dedupeAux vistos l, dedupeKey e = dedupeKey d := by
  intro l
  induction l with
  | nil =>
    intro vistos d h
    simp at h
  | cons d0 rest ih =>
    intro vistos d hmem hnot
    by_cases h0 : dedupeKey d0 ∈ vistos
    · rw [dedupeAux, if_pos h0]
      rcases List.mem_cons.mp hmem with h | h
      · subst h
        exact absurd h0 hnot
      · exact ih vistos d h hnot
    · rw [dedupeAux, if_neg h0]
      rcases List.mem_cons.mp hmem with h | h
      · subst h
        exact ⟨d, List.mem_cons_self _ _, rfl⟩
      · by_cases hk : dedupeKey d = dedupeKey d0
        · exact ⟨d0, List.mem_cons_self _ _, hk.symm⟩
        · have hnot2 : dedupeKey d ∉ dedupeKey d0 :: vistos := by
            intro hv
            rcases List.mem_cons.mp hv with hv | hv
            · exact hk hv
            · exact hnot hv
          rcases ih (dedupeKey d0 :: vistos) d h hnot2 with ⟨e, he, hkey⟩
          exact ⟨e, List.mem_cons_of_mem d0 he, hkey⟩

theorem dedupeAux_sublist :
    ∀ (l : List Dependencia) (vistos : List String),
      (dedupeAux vistos l).Sublist l := by
  intro l
  induction l with
  | nil =>
    intro vistos
    simp [dedupeAux]
  | cons d0 rest ih =>
    intro vistos
    by_cases h0 : dedupeKey d0 ∈ vistos
    · rw [dedupeAux, if_pos h0]
      exact (ih vistos).cons d0
    · rw [dedupeAux, if_neg h0]
      exact (ih (dedupeKey d0 :: vistos)).cons₂ d0

/-- Lowercasing of a whole string (used only to state the original
claim about case-insensitive identity). -/
def strToLower (s : String) : String := String.mk (s.data.map Char.toLower)

/-- Counterexample to claim C6: the deduplication key of the code is the
ecosystem and the verbatim name, with no lowercasing, so two records
that differ only in name case both survive even though they share the
identity (ecosystem, lowercase name) the claim asserts to be unique. -/
theorem claim_C6_counterexample :
    coletarDedupe [{ name := "Left-Pad", version := none, ecosystem := "npm" },
        { name := "left-pad", version := none, ecosystem := "npm" }] =
      [{ name := "Left-Pad", version := none, ecosystem := "npm" },
        { name := "left-pad", version := none, ecosystem := "npm" }] ∧
    strToLower ("Left-Pad") = strToLower ("left-pad") ∧
    ({ name := "Left-Pad", version := none, ecosystem := "npm" } : Dependencia) ≠
      { name := "left-pad", version := none, ecosystem := "npm" } := by
  refine ⟨?_, by decide, by decide⟩
  decide

/-- Claim C6 as amended: the deduplication identity is the verbatim
string of ecosystem, a colon and the case-sensitive name; exactly one
record survives per such key; the survivor is the first occurrence in
input order; the output is a subsequence of the input; and every input
record has a surviving representative with its key. -/
theorem claim_C6_dedupe_first_wins (todos : List Dependencia) :
    ((coletarDedupe todos).map dedupeKey).Nodup ∧
    (coletarDedupe todos).Sublist todos ∧
    (∀ d ∈ coletarDedupe todos,
      todos.find? (fun x => dedupeKey x == dedupeKey d) = some d) ∧
    (∀ d ∈ todos, ∃ e ∈ coletarDedupe todos, dedupeKey e = dedupeKey d) :=
  ⟨dedupeAux_keys_nodup todos [],
    dedupeAux_sublist todos [],
    fun d hd => dedupeAux_first_wins todos [] d hd,
    fun d hd => dedupeAux_covers todos [] d hd (by simp)⟩

/-- Witness for the amended claim C6 at a concrete input with an exact
duplicate: the first occurrence is the survivor found by key, and the
duplicate is represented by it. -/
theorem claim_C6_witness :
    ([{ name := "lodash", version := some ("4.0.0"), ecosystem := "npm" },
        { name := "react", version := none, ecosystem := "npm" },
        { name := "lodash", version := some ("3.0.0"), ecosystem := "npm" }].find?
      (fun x => dedupeKey x ==
        dedupeKey { name := "lodash", version := some ("4.0.0"), ecosystem := "npm" }) =
      some { name := "lodash", version := some ("4.0.0"), ecosystem := "npm" }) ∧
    (∃ e ∈ coletarDedupe
        [{ name := "lodash", version := some ("4.0.0"), ecosystem := "npm" },
          { name := "react", version := none, ecosystem := "npm" },
          { name := "lodash", version := some ("3.0.0"), ecosystem := "npm" }],
      dedupeKey e =
        dedupeKey { name := "lodash", version := some ("3.0.0"), ecosystem := "npm" }) :=
  ⟨(claim_C6_dedupe_first_wins _).2.2.1 _ (by decide),
    (claim_C6_dedupe_first_wins _).2.2.2 _ (by decide)⟩

/-- The operator alternation of the editor pip regular expression, tried
in source order: two-character operators before the bare less/greater
signs; a tilde alone is not an operator. -/
def stripPipOpVS (s : List Char) : List Char :=
  match s with
  | '=' :: '=' :: r => r
  | '>' :: '=' :: r => r
  | '<' :: '=' :: r => r
  | '>' :: r => r
  | '<' :: r => r
  | '~' :: '=' :: r => r
  | _ => s

/-- One line of the editor pip extraction: skip blank lines and
full-line comments only, then match a leading identifier as the name,
an optional comparison operator and an optional digits-and-dots
version. -/
def pipLineCore (line : List Char) : Option Dependencia :=
  let trimmed := trimChars line
  if trimmed.isEmpty then none
  else if ['#'].isPrefixOf trimmed then none
  else
    let nameRun := trimmed.takeWhile isIdentChar
    if nameRun.isEmpty then none
    else
      let ver := (stripPipOpVS (trimmed.dropWhile isIdentChar)).takeWhile isVerChar
      some { name := String.mk nameRun,
             version := if ver.isEmpty then none else some (String.mk ver),
             ecosystem := "pypi" }

/-- parseDependencyFile of the editor scanner: JSON spread-merge
extraction for a package.json name, the line-oriented pip extraction for
a requirements.txt name, the empty sequence otherwise.  The host JSON
parser is the first parameter; a none result models a parse throw that
the try block turns into an empty result. -/
def parseDependencyFile (jsonParse : String → Option NpmPkg)
    (content filename : String) : List Dependencia :=
  if ("package.json".data.isSuffixOf filename.data) then
    match jsonParse content with
    | none => []
    | some pkg =>
      (jsSpreadMerge [pkg.dependencies, pkg.devDependencies, pkg.optionalDependencies]).filterMap
        (fun p =>
          match p.2 with
          | JsonLite.str v =>
            some { name := p.1, version := some (normalizeNpmVersion v), ecosystem := "npm" }
          | JsonLite.other => none)
  else if ("requirements.txt".data.isSuffixOf filename.data) then
    (splitOnChar '\n' content.data).filterMap pipLineCore
  else []

/-- Result of the position-tracking extraction of the editor scanner. -/
structure ParseResult where
  pacotes : List Dependencia
  posicoes : List (String × (Nat × Nat))
deriving DecidableEq

/-- Position scan of the npm branch: the first line containing the
quoted package name, with the character index just after the opening
quote. -/
def findQuotedPosAux (name : String) : Nat → List (List Char) → Option (Nat × Nat)
  | _, [] => none
  | i, line :: rest =>
    match indexOfSub line ('"' :: name.data ++ ['"']) with
    | some idx => some (i, idx + 1)
    | none => findQuotedPosAux name (i + 1) rest

/-- Line loop of the pip branch of parseDependencyFileWithPositions:
collect the records in line order and set the position of each name to
its line index and its first character index within the raw line. -/
def pipWithPosAux : Nat → List (List Char) → List Dependencia →
    List (String × (Nat × Nat)) → ParseResult
  | _, [], ps, pos => { pacotes := ps, posicoes := pos }
  | i, line :: rest, ps, pos =>
    match pipLineCore line with
    | none => pipWithPosAux (i + 1) rest ps pos
    | some d =>
      pipWithPosAux (i + 1) rest (ps ++ [d])
        (mapSet pos d.name (i, (indexOfSub line d.name.data).getD 0))

/-- parseDependencyFileWithPositions of the editor scanner: the same
extraction as parseDependencyFile plus a name-to-position map. -/
def parseDependencyFileWithPositions (jsonParse : String → Option NpmPkg)
    (content filename : String) : ParseResult :=
  if ("package.json".data.isSuffixOf filename.data) then
    match jsonParse content with
    | none => { pacotes := [], posicoes := [] }
    | some pkg =>
      (jsSpreadMerge [pkg.dependencies, pkg.devDependencies, pkg.optionalDependencies]).foldl
        (fun acc p =>
          match p.2 with
          | JsonLite.str v =>
            let acc2 := { acc with pacotes := acc.pacotes ++
              [{ name := p.1, version := some (normalizeNpmVersion v), ecosystem := "npm" }] }
            match findQuotedPosAux p.1 0 (splitOnChar '\n' content.data) with
            | some posv => { acc2 with posicoes := mapSet acc2.posicoes p.1 posv }
            | none => acc2
          | JsonLite.other => acc)
        { pacotes := [], posicoes := [] }
  else if ("requirements.txt".data.isSuffixOf filename.data) then
    pipWithPosAux 0 (splitOnChar '\n' content.data) [] []
  else { pacotes := [], posicoes := [] }

/-- The Scenario A manifest text, on a single line (braces written with
character escapes). -/
def manifestA : String :=
  "\x7b\"dependencies\":\x7b\"lodash\":\"^4.17.21\"\x7d,\"devDependencies\":\x7b\"lodash\":\"^3.0.0\"\x7d\x7d"

/-- The object the host JSON parser produces for manifestA. -/
def manifestAParsed : NpmPkg :=
  { dependencies := [("lodash", JsonLite.str ("^4.17.21"))],
    devDependencies := [("lodash", JsonLite.str ("^3.0.0"))],
    optionalDependencies := [] }

/-- A host JSON parser that succeeds exactly on manifestA. -/
def manifestAParse : String → Option NpmPkg :=
  fun s => if s = manifestA then some manifestAParsed else none

/-- Counterexample to claim C4: the object spread merges devDependencies
after dependencies, so the later-merged devDependencies value wins and
the extracted version is 3.0.0, not the claimed 4.17.21. -/
theorem claim_C4_counterexample :
    parsePackageJson [("lodash", JsonLite.str ("^4.17.21"))]
        [("lodash", JsonLite.str ("^3.0.0"))] [] =
      [{ name := "lodash", version := some ("3.0.0"), ecosystem := "npm" }] ∧
    parsePackageJson [("lodash", JsonLite.str ("^4.17.21"))]
        [("lodash", JsonLite.str ("^3.0.0"))] [] ≠
      [{ name := "lodash", version := some ("4.17.21"), ecosystem := "npm" }] := by
  constructor <;> decide

/-- Claim C4 as amended: the Scenario A manifest yields exactly one
record, for lodash with version 3.0.0 (the dependencies entry is
overwritten by the later-merged devDependencies value), and the
position-tracking extraction places it at the first occurrence of the
quoted name in the file text, one character after the opening quote. -/
theorem claim_C4_scenarioA :
    parsePackageJson [("lodash", JsonLite.str ("^4.17.21"))]
        [("lodash", JsonLite.str ("^3.0.0"))] [] =
      [{ name := "lodash", version := some ("3.0.0"), ecosystem := "npm" }] ∧
    parseDependencyFileWithPositions manifestAParse manifestA ("package.json") =
      { pacotes := [{ name := "lodash", version := some ("3.0.0"), ecosystem := "npm" }],
        posicoes := [("lodash", (0, 18))] } := by
  constructor <;> decide

/-- Claim C5: extraction is total and malformed input degrades to the
empty record sequence: a JSON parse failure yields no records from a
package.json file (in both the plain and the position-tracking
extraction), and a pyproject text in which neither dependency-section
pattern matches yields no records. -/
theorem claim_C5_never_throws :
    (∀ (jsonParse : String → Option NpmPkg) (content filename : String),
      jsonParse content = none →
      ("package.json".data.isSuffixOf filename.data) = true →
      parseDependencyFile jsonParse content filename = []) ∧
    (∀ (jsonParse : String → Option NpmPkg) (content filename : String),
      jsonParse content = none →
      ("package.json".data.isSuffixOf filename.data) = true →
      parseDependencyFileWithPositions jsonParse content filename =
        { pacotes := [], posicoes := [] }) ∧
    (∀ (projectMatch poetryMatch : String → Option String) (conteudo : String),
      projectMatch conteudo = none → poetryMatch conteudo = none →
      parsePyprojectToml projectMatch poetryMatch conteudo = []) := by
  refine ⟨?_, ?_, ?_⟩
  · intro jp content filename h hf
    rw [parseDependencyFile, if_pos hf, h]
  · intro jp content filename h hf
    rw [parseDependencyFileWithPositions, if_pos hf, h]
  · intro pm qm c h1 h2
    rw [parsePyprojectToml, h1, h2]
    rfl

/-- Witness for claim C5 on concrete malformed inputs. -/
theorem claim_C5_witness :
    parseDependencyFile (fun _ => none) ("not json at all") ("package.json") = [] ∧
    parseDependencyFileWithPositions (fun _ => none) ("\x7b broken") ("package.json") =
      { pacotes := [], posicoes := [] } ∧
    parsePyprojectToml (fun _ => none) (fun _ => none) ("no sections here") = [] :=
  ⟨claim_C5_never_throws.1 _ _ _ rfl (by decide),
    claim_C5_never_throws.2.1 _ _ _ rfl (by decide),
    claim_C5_never_throws.2.2 _ _ _ rfl rfl⟩

theorem mem_of_mem_trimChars {c : Char} {s : List Char} (h : c ∈ trimChars s) : c ∈ s := by
  rw [trimChars] at h
  have h1 := List.mem_reverse.mp h
  have h2 := (List.dropWhile_sublist _).subset h1
  have h3 := List.mem_reverse.mp h2
  exact (List.dropWhile_sublist _).subset h3

theorem hash_not_mem_stripInline (l : List Char) : '#' ∉ stripInline l := by
  rw [stripInline]
  by_cases h : l.contains '#'
  · rw [if_pos h]
    intro hmem
    have h2 : '#' ∈ l.takeWhile (fun c => c != '#') := mem_of_mem_trimChars hmem
    have h3 := List.mem_takeWhile_imp h2
    simp at h3
  · rw [if_neg h]
    intro hmem
    exact h (by simpa using hmem)

theorem parseRequirementsLinha_skip (linha : String)
    (h : (trimChars linha.data).isEmpty = true ∨
      ['#'].isPrefixOf (trimChars linha.data) = true ∨
      ['-', 'r', ' '].isPrefixOf (trimChars linha.data) = true ∨
      ['-', 'e', ' '].isPrefixOf (trimChars linha.data) = true ∨
      ['-', '-'].isPrefixOf (trimChars linha.data) = true) :
    parseRequirementsLinha linha = none := by
  rcases h with h | h | h | h | h <;> simp [parseRequirementsLinha, h]

theorem parseRequirementsLinha_name (linha : String) (d : Dependencia)
    (h : parseRequirementsLinha linha = some d) :
    ((stripInline (trimChars linha.data)).takeWhile isIdentChar).isEmpty = false ∧
    d.name = String.mk
      (((stripInline (trimChars linha.data)).takeWhile isIdentChar).map lowerNorm) ∧
    '#' ∉ stripInline (trimChars linha.data) ∧
    d.ecosystem = "pypi" := by
  simp only [parseRequirementsLinha] at h
  split at h
  next hskip => exact absurd h (by simp)
  next hskip =>
    split at h
    next hne => exact absurd h (by simp)
    next hne =>
      rw [← Option.some.inj h]
      exact ⟨by simpa using hne, rfl, hash_not_mem_stripInline _, rfl⟩

/-- Claim C8 as amended: the batch pip parser parseRequirements skips
blank lines, full-line comments and continuation or option lines,
strips inline comments, and names a record by the lowercased leading
identifier of the stripped line, so an option line such as a file
inclusion yields no record there.  The interactive pip extraction of
the editor scanner, however, only skips blank and full-line-comment
lines (see the counterexample). -/
theorem claim_C8_pip_rules :
    (∀ linha : String,
      ((trimChars linha.data).isEmpty = true ∨
        ['#'].isPrefixOf (trimChars linha.data) = true ∨
        ['-', 'r', ' '].isPrefixOf (trimChars linha.data) = true ∨
        ['-', 'e', ' '].isPrefixOf (trimChars linha.data) = true ∨
        ['-', '-'].isPrefixOf (trimChars linha.data) = true) →
      parseRequirementsLinha linha = none) ∧
    parseRequirements ("-r other.txt") = [] ∧
    (∀ (linha : String) (d : Dependencia), parseRequirementsLinha linha = some d →
      ((stripInline (trimChars linha.data)).takeWhile isIdentChar).isEmpty = false ∧
      d.name = String.mk
        (((stripInline (trimChars linha.data)).takeWhile isIdentChar).map lowerNorm) ∧
      '#' ∉ stripInline (trimChars linha.data) ∧
      d.ecosystem = "pypi") :=
  ⟨parseRequirementsLinha_skip, by decide, parseRequirementsLinha_name⟩

/-- Counterexample to claim C8: the editor pip extraction does not skip
option lines, so the file-inclusion line yields a record whose name is
the option text itself. -/
theorem claim_C8_counterexample :
    parseDependencyFile (fun _ => none) ("-r other.txt") ("requirements.txt") =
      [{ name := "-r", version := none, ecosystem := "pypi" }] ∧
    parseDependencyFile (fun _ => none) ("-r other.txt") ("requirements.txt") ≠ [] := by
  constructor <;> decide

/-- Witness for the amended claim C8: a full-line comment is skipped,
and the Scenario B line yields the lowercased identifier requests with
no comment text in the stripped line. -/
theorem claim_C8_witness :
    parseRequirementsLinha ("# pinned deps") = none ∧
    (((stripInline (trimChars ("requests==2.28.0  # pinned for CVE").data)).takeWhile
        isIdentChar).isEmpty = false ∧
      ({ name := "requests", version := some ("2.28.0"), ecosystem := "pypi" } :
        Dependencia).name = String.mk
          (((stripInline (trimChars ("requests==2.28.0  # pinned for CVE").data)).takeWhile
            isIdentChar).map lowerNorm) ∧
      '#' ∉ stripInline (trimChars ("requests==2.28.0  # pinned for CVE").data) ∧
      ({ name := "requests", version := some ("2.28.0"), ecosystem := "pypi" } :
        Dependencia).ecosystem = "pypi") :=
  ⟨claim_C8_pip_rules.1 _ (Or.inr (Or.inl (by decide))),
    claim_C8_pip_rules.2.2 _ _ (by decide)⟩

/-- Diagnostic severities used by the annotation module. -/
inductive Severity where
  | error
  | warning
deriving DecidableEq

/-- A published diagnostic: the range over the package name, the
message, the severity and the fixed source tag. -/
structure Diagnostico where
  line : Nat
  character : Nat
  endLine : Nat
  endCharacter : Nat
  message : String
  severity : Severity
  source : String
deriving DecidableEq

/-- Message of a high-risk diagnostic (the score rendering stands in for
the two-decimal formatting; no claim inspects it). -/
def msgRiscoAlto (pkg : ResultadoPacote) : String :=
  "Specter: Risco alto (score " ++ formatRat pkg.score ++ ") — " ++ pkg.recommendation

/-- Message of a review-recommended diagnostic. -/
def msgRevisao (pkg : ResultadoPacote) : String :=
  "Specter: Revisão recomendada (score " ++ formatRat pkg.score ++ ") — " ++ pkg.recommendation

/-- The per-package diagnostic decision of updateDiagnostics: a score
above 0.7 gives an Error diagnostic, otherwise a score between the
threshold and 0.7 gives a Warning diagnostic, otherwise nothing. -/
def diagnosticoPara (pos : Nat × Nat) (riskThreshold : Rat) (pkg : ResultadoPacote) :
    Option Diagnostico :=
  if 7/10 < pkg.score then
    some { line := pos.1, character := pos.2, endLine := pos.1,
           endCharacter := pos.2 + pkg.name.length, message := msgRiscoAlto pkg,
           severity := Severity.error, source := "specter" }
  else if riskThreshold ≤ pkg.score ∧ pkg.score ≤ 7/10 then
    some { line := pos.1, character := pos.2, endLine := pos.1,
           endCharacter := pos.2 + pkg.name.length, message := msgRevisao pkg,
           severity := Severity.warning, source := "specter" }
  else none

/-- updateDiagnostics of the annotation module: a null result deletes
the diagnostics of the file; otherwise the diagnostics of the file are
replaced by the per-package decisions of the packages whose name has a
known position. -/
def updateDiagnostics (collection : List (String × List Diagnostico)) (uri : String)
    (results : Option ResponseScan) (posicoes : List (String × (Nat × Nat)))
    (riskThreshold : Rat) : List (String × List Diagnostico) :=
  match results with
  | none => eraseKey collection uri
  | some r =>
    mapSet collection uri (r.packages.filterMap (fun pkg =>
      match mapGet posicoes pkg.name with
      | none => none
      | some pos => diagnosticoPara pos riskThreshold pkg))

/-- Claim C7 as amended: for a scored package with a known position, an
Error diagnostic is emitted iff the score exceeds 0.7; a Warning
diagnostic is emitted iff the score lies between the threshold and 0.7;
and no diagnostic is emitted iff the score is below the threshold and
also at most 0.7 (a score above 0.7 always yields an Error diagnostic,
even when it is below a threshold configured above 0.7); the published
diagnostics of a file are exactly these per-package decisions. -/
theorem claim_C7_severity_mapping (riskThreshold : Rat) (pkg : ResultadoPacote)
    (pos : Nat × Nat) (collection : List (String × List Diagnostico)) (uri : String)
    (r : ResponseScan) (posicoes : List (String × (Nat × Nat))) :
    ((diagnosticoPara pos riskThreshold pkg).map Diagnostico.severity = some Severity.error ↔
      (7 : Rat)/10 < pkg.score) ∧
    ((diagnosticoPara pos riskThreshold pkg).map Diagnostico.severity = some Severity.warning ↔
      (riskThreshold ≤ pkg.score ∧ pkg.score ≤ 7/10)) ∧
    (diagnosticoPara pos riskThreshold pkg = none ↔
      (pkg.score < riskThreshold ∧ pkg.score ≤ 7/10)) ∧
    updateDiagnostics collection uri (some r) posicoes riskThreshold =
      mapSet collection uri (r.packages.filterMap (fun p =>
        match mapGet posicoes p.name with
        | none => none
        | some ps => diagnosticoPara ps riskThreshold p)) := by
  refine ⟨?_, ?_, ?_, rfl⟩
  · rw [diagnosticoPara]
    by_cases h1 : (7 : Rat)/10 < pkg.score
    · rw [if_pos h1]
      simp [h1]
    · rw [if_neg h1]
      by_cases h2 : riskThreshold ≤ pkg.score ∧ pkg.score ≤ 7/10
      · rw [if_pos h2]
        simp [h1]
      · rw [if_neg h2]
        simp [h1]
  · rw [diagnosticoPara]
    by_cases h1 : (7 : Rat)/10 < pkg.score
    · rw [if_pos h1]
      constructor
      · intro hc
        simp at hc
      · rintro ⟨_, hb⟩
        exact absurd h1 (not_lt.mpr hb)
    · rw [if_neg h1]
      by_cases h2 : riskThreshold ≤ pkg.score ∧ pkg.score ≤ 7/10
      · rw [if_pos h2]
        simp [h2]
      · rw [if_neg h2]
        simp [h2]
  · rw [diagnosticoPara]
    by_cases h1 : (7 : Rat)/10 < pkg.score
    · rw [if_pos h1]
      have hnle : ¬ pkg.score ≤ 7/10 := not_le.mpr h1
      simp [hnle]
    · rw [if_neg h1]
      have hle : pkg.score ≤ 7/10 := not_lt.mp h1
      by_cases h2 : riskThreshold ≤ pkg.score ∧ pkg.score ≤ 7/10
      · rw [if_pos h2]
        have := not_lt.mpr h2.1
        simp [this]
      · rw [if_neg h2]
        have hlt : pkg.score < riskThreshold :=
          not_le.mp (fun hθ => h2 ⟨hθ, hle⟩)
        simp [hlt, hle]

/-- A verdict whose score lies above 0.7 but below a high threshold. -/
def pacoteReview : ResultadoPacote :=
  { name := "shady-pkg", ecosystem := "npm", version := none, score := 4/5,
    verdict := "review", top_reasons := [], recommendation := "inspect" }

/-- Counterexample to claim C7: with the threshold configured at 0.9, a
package scoring 0.8 is below the threshold, yet the code emits an Error
diagnostic, refuting the asserted equivalence of no-diagnostic with
score below threshold. -/
theorem claim_C7_counterexample :
    pacoteReview.score < 9/10 ∧
    diagnosticoPara (0, 0) (9/10) pacoteReview ≠ none ∧
    (diagnosticoPara (0, 0) (9/10) pacoteReview).map Diagnostico.severity =
      some Severity.error := by
  refine ⟨by norm_num [pacoteReview], ?_, ?_⟩
  · rw [diagnosticoPara, if_pos (by norm_num [pacoteReview])]
    simp
  · rw [diagnosticoPara, if_pos (by norm_num [pacoteReview])]
    rfl

/-- The per-file extension state touched by a scan: the diagnostics
collection and the scan-result map, both keyed by file identity. -/
structure ExtensionState where
  diagnostics : List (String × List Diagnostico)
  scanResults : List (String × Option ResponseScan)
deriving DecidableEq

/-- scanPackages of the editor scanner with the network abstracted: the
early null returns on an empty package list or a blank key, then the
remote call (whose none result models an error, a non-200 status, a
malformed body or the timeout). -/
def scanPackagesModel (api : List Dependencia → Option ResponseScan) (apiKey : String)
    (pacotes : List Dependencia) : Option ResponseScan :=
  if pacotes.isEmpty then none
  else if (trimChars apiKey.data).isEmpty then none
  else api pacotes

/-- The batch loop of runScanForFile: submit batches in order, abort on
the first null result, otherwise accumulate the packages in order and
sum the flagged totals. -/
def scanLoop (scan : List Dependencia → Option ResponseScan) :
    List (List Dependencia) → Option (List ResultadoPacote × Nat)
  | [] => some ([], 0)
  | b :: bs =>
    match scan b with
    | none => none
    | some r =>
      match scanLoop scan bs with
      | none => none
      | some p => some (r.packages ++ p.1, r.total_flagged + p.2)

/-- runScanForFile of the extension entry file: missing key leaves the
state untouched; no extracted packages or a failed batch delete the
diagnostics of the file and store a null result; a fully successful run
stores the combined response and republishes the diagnostics.  The
status-bar and log side channels are outside the modelled state. -/
def runScanForFile (jsonParse : String → Option NpmPkg)
    (api : List Dependencia → Option ResponseScan) (apiKey : String) (riskThreshold : Rat)
    (uri content filename : String) (st : ExtensionState) : ExtensionState :=
  if apiKey = "" then st
  else if (parseDependencyFileWithPositions jsonParse content filename).pacotes.isEmpty then
    { diagnostics := eraseKey st.diagnostics uri,
      scanResults := mapSet st.scanResults uri none }
  else
    match scanLoop (scanPackagesModel api apiKey)
        (chunksOf MAX_PACOTES_POR_REQUEST
          (parseDependencyFileWithPositions jsonParse content filename).pacotes) with
    | none =>
      { diagnostics := eraseKey st.diagnostics uri,
        scanResults := mapSet st.scanResults uri none }
    | some p =>
      { diagnostics := updateDiagnostics st.diagnostics uri
          (some { session_id := "", packages := p.1, total_scanned := p.1.length,
                  total_flagged := p.2, response_time_ms := 0 })
          (parseDependencyFileWithPositions jsonParse content filename).posicoes riskThreshold,
        scanResults := mapSet st.scanResults uri
          (some { session_id := "", packages := p.1, total_scanned := p.1.length,
                  total_flagged := p.2, response_time_ms := 0 }) }

theorem scanLoop_eq_none_iff (scan : List Dependencia → Option ResponseScan) :
    ∀ bs : List (List Dependencia),
      scanLoop scan bs = none ↔ ∃ b ∈ bs, scan b = none := by
  intro bs
  induction bs with
  | nil => simp [scanLoop]
  | cons b rest ih =>
    cases hb : scan b with
    | none =>
      constructor
      · intro _
        exact ⟨b, List.mem_cons_self _ _, hb⟩
      · intro _
        simp [scanLoop, hb]
    | some r =>
      constructor
      · intro h
        simp only [scanLoop, hb] at h
        cases hrest : scanLoop scan rest with
        | none =>
          rcases ih.mp hrest with ⟨x, hx, hxn⟩
          exact ⟨x, List.mem_cons_of_mem _ hx, hxn⟩
        | some p =>
          rw [hrest] at h
          simp at h
      · rintro ⟨x, hx, hxn⟩
        rcases List.mem_cons.mp hx with hx | hx
        · subst hx
          rw [hb] at hxn
          cases hxn
        · have hrest : scanLoop scan rest = none := ih.mpr ⟨x, hx, hxn⟩
          simp [scanLoop, hb, hrest]

/-- Claim C10: whenever an interactive scan ends in a hard failure (some
batch call returns no result), the extension deletes every published
diagnostic for the file and stores a null scan result in its place, so
annotations and results of an earlier successful scan never persist
past a failed rescan. -/
theorem claim_C10_failure_clears (jsonParse : String → Option NpmPkg)
    (api : List Dependencia → Option ResponseScan) (apiKey : String) (riskThreshold : Rat)
    (uri content filename : String) (st : ExtensionState)
    (hkey : apiKey ≠ "")
    (hfail : ∃ b ∈ chunksOf MAX_PACOTES_POR_REQUEST
        (parseDependencyFileWithPositions jsonParse content filename).pacotes,
      scanPackagesModel api apiKey b = none) :
    mapGet (runScanForFile jsonParse api apiKey riskThreshold uri content filename
      st).diagnostics uri = none ∧
    mapGet (runScanForFile jsonParse api apiKey riskThreshold uri content filename
      st).scanResults uri = some none := by
  rw [runScanForFile, if_neg hkey]
  by_cases hp : (parseDependencyFileWithPositions jsonParse content filename).pacotes.isEmpty
      = true
  · rw [if_pos hp]
    exact ⟨mapGet_eraseKey _ _, mapGet_mapSet _ _ _⟩
  · rw [if_neg hp]
    have hnone := (scanLoop_eq_none_iff (scanPackagesModel api apiKey) _).mpr hfail
    rw [hnone]
    exact ⟨mapGet_eraseKey _ _, mapGet_mapSet _ _ _⟩

/-- A host JSON parser yielding one dependency for every content. -/
def jsonParseUm : String → Option NpmPkg :=
  fun _ => some { dependencies := [("lodash", JsonLite.str ("1.0.0"))],
                  devDependencies := [], optionalDependencies := [] }

/-- Witness for claim C10: a failing remote call on a file with one
extracted package leaves no diagnostics and a stored null result. -/
theorem claim_C10_witness :
    mapGet (runScanForFile jsonParseUm (fun _ => none) ("chave") (1/2)
      ("file:a/package.json") ("conteudo") ("package.json")
      { diagnostics := [], scanResults := [] }).diagnostics ("file:a/package.json") = none ∧
    mapGet (runScanForFile jsonParseUm (fun _ => none) ("chave") (1/2)
      ("file:a/package.json") ("conteudo") ("package.json")
      { diagnostics := [], scanResults := [] }).scanResults ("file:a/package.json") =
      some none :=
  claim_C10_failure_clears jsonParseUm (fun _ => none) ("chave") (1/2)
    ("file:a/package.json") ("conteudo") ("package.json")
    { diagnostics := [], scanResults := [] } (by decide) (by decide)

/-- The debounce delay of the extension. -/
def DEBOUNCE_MS : Nat := 1000

/-- The event-loop state of the debounced trigger for one watched file:
the pending timer deadline (absolute time, none when no timer is set),
the current saved content of the file, and the contents read by the
scans started so far, in order. -/
structure DebounceState where
  timer : Option Nat
  fileContent : String
  scans : List String
deriving DecidableEq

/-- Deliver a due timer callback before handling an event at the given
time: the callback clears the timer field and starts a scan, which
re-reads the current file content. -/
def fireIfDue (st : DebounceState) (now : Nat) : DebounceState :=
  match st.timer with
  | some deadline =>
    if deadline ≤ now then
      { timer := none, fileContent := st.fileContent, scans := st.scans ++ [st.fileContent] }
    else st
  | none => st

/-- runScanDebounced on a save event at time t: any due timer fires
first (single-threaded event delivery), the saved content replaces the
file content, the pending timer (if any) is cleared and a fresh timer is
set one debounce delay ahead. -/
def onSave (st : DebounceState) (t : Nat) (c : String) : DebounceState :=
  { timer := some (t + DEBOUNCE_MS), fileContent := c, scans := (fireIfDue st t).scans }

/-- Run a trace of timestamped save events and then let time pass to
tEnd, delivering a final due timer. -/
def runTrace (st : DebounceState) (saves : List (Nat × String)) (tEnd : Nat) : DebounceState :=
  fireIfDue (saves.foldl (fun s p => onSave s p.1 p.2) st) tEnd

/-- Claim C9: two rapid save events within the debounce window collapse
into exactly one scheduled scan (the second save resets the timer
instead of stacking a second one), and the scan reads the content
present at the second save. -/
theorem claim_C9_debounce_collapse (c0 c1 c2 : String) (t1 t2 tEnd : Nat)
    (h1 : t2 < t1 + DEBOUNCE_MS) (h2 : t2 + DEBOUNCE_MS ≤ tEnd) :
    runTrace { timer := none, fileContent := c0, scans := [] } [(t1, c1), (t2, c2)] tEnd =
      { timer := none, fileContent := c2, scans := [c2] } := by
  have e1 : onSave { timer := none, fileContent := c0, scans := [] } t1 c1 =
      { timer := some (t1 + DEBOUNCE_MS), fileContent := c1, scans := [] } := rfl
  have e2 : onSave { timer := some (t1 + DEBOUNCE_MS), fileContent := c1, scans := [] } t2 c2 =
      { timer := some (t2 + DEBOUNCE_MS), fileContent := c2, scans := [] } := by
    rw [onSave, fireIfDue]
    simp only []
    rw [if_neg (by omega)]
  have e3 : fireIfDue { timer := some (t2 + DEBOUNCE_MS), fileContent := c2, scans := [] }
      tEnd = { timer := none, fileContent := c2, scans := [c2] } := by
    rw [fireIfDue]
    simp only []
    rw [if_pos h2]
    simp
  show fireIfDue (onSave (onSave { timer := none, fileContent := c0, scans := [] } t1 c1)
    t2 c2) tEnd = _
  rw [e1, e2, e3]

/-- Witness for claim C9 at concrete times: saves at 0 and 500 with the
window 1000 produce exactly one scan at or after 1500, reading the
content of the second save. -/
theorem claim_C9_witness :
    runTrace { timer := none, fileContent := "a", scans := [] } [(0, "b"), (500, "c")] 1500 =
      { timer := none, fileContent := "c", scans := ["c"] } :=
  claim_C9_debounce_collapse ("a") ("b") ("c") 0 500 1500 (by decide) (by decide)
